import Mathlib

/-!
Verification of `main.py`, a CLI tool that fetches the Ethereum TVL series,
filters it to a trailing window, samples it for tabular display and renders
a chart.

Embedding conventions:
* A `datetime` value is embedded as an integer number of Unix seconds
  (`datetime.fromtimestamp` is injective on the values this program handles,
  so local-time conversion is modelled as the identity on seconds).
* A `timedelta` of `d` days is `d * 86400` seconds; the Python attribute
  `timedelta.days` is flooring division by 86400, embedded as `Int.fdiv`.
* Python floats are embedded as rationals; `round(x, 2)` is embedded as
  rounding to the nearest hundredth (exact binary tie-breaking of floats is
  approximated by the rational rounding mode).
* The HTTP layer is embedded as an explicit `FetchOutcome` argument standing
  for the response the `requests` library would deliver.
* Uncaught Python exceptions (`IndexError` from `data[-1]` / `data[0]` on an
  empty list, `ZeroDivisionError` from `x / 0.0`) are embedded as the error
  case of `Except PyError`.
* `list.sort` (a stable sort by the `date` key) is embedded as insertion
  sort, which is also stable, hence extensionally equal on every input.
-/

set_option maxRecDepth 8000

/-- Python exceptions that `main.py` can raise and never catches. -/
inductive PyError where
  | indexError
  | zeroDivisionError
deriving DecidableEq, Repr

instance {ε α : Type} [DecidableEq ε] [DecidableEq α] : DecidableEq (Except ε α) := by
  intro x y
  cases x <;> cases y
  case error.error a b =>
    exact match decEq a b with
      | isTrue h => isTrue (by rw [h])
      | isFalse h => isFalse (fun hh => by cases hh; exact h rfl)
  case ok.ok a b =>
    exact match decEq a b with
      | isTrue h => isTrue (by rw [h])
      | isFalse h => isFalse (fun hh => by cases hh; exact h rfl)
  case error.ok a b => exact isFalse (fun hh => by cases hh)
  case ok.error a b => exact isFalse (fun hh => by cases hh)

/-- One TVL record: the dict `{'date': datetime, 'tvl': float}` built by
`fetch_ethereum_tvl`.  `date` is in Unix seconds, `tvl` in USD. -/
structure Record where
  date : ℤ
  tvl : ℚ
deriving DecidableEq, Repr

/-- One entry of the JSON array returned by the Llama.fi endpoint:
a Unix-seconds timestamp and a TVL figure. -/
structure ApiEntry where
  date : ℤ
  tvl : ℚ
deriving DecidableEq, Repr

/-- The possible outcomes of the HTTP GET issued by `fetch_ethereum_tvl`:
a network-level failure raised by `requests.get`, a non-2xx status raised by
`raise_for_status`, a body that fails to parse as the expected JSON, or a
successful parse into entries.  All three failure cases are caught by the
single `except Exception` clause in the source. -/
inductive FetchOutcome where
  | netError (msg : String)
  | httpError (status : ℕ)
  | badJson
  | ok (entries : List ApiEntry)
deriving DecidableEq, Repr

/-- `True` on the three failure constructors of `FetchOutcome`. -/
def FetchOutcome.isErr : FetchOutcome → Bool
  | .ok _ => false
  | _ => true

/-- Embedding of Python `round(x, 2)`: round to the nearest hundredth.
(`round` on a rational value `q` here is `⌊q + 1/2⌋`; CPython breaks the
rare exact ties of binary floats to even, a difference invisible to every
claim below.) -/
def round2 (q : ℚ) : ℚ := ((round (q * 100) : ℤ) : ℚ) / 100

/-- `fetch_ethereum_tvl` (main.py lines 6-32): on a successful response,
convert each entry's timestamp to a datetime and its TVL to a rounded float;
on any exception, print `Error: ...` and return `None`.  The first component
is the Python return value, the second the list of lines printed. -/
def fetch_ethereum_tvl (resp : FetchOutcome) : Option (List Record) × List String :=
  match resp with
  | .netError msg => (none, ["Error: " ++ msg])
  | .httpError status => (none, ["Error: HTTP status " ++ toString status])
  | .badJson => (none, ["Error: malformed JSON"])
  | .ok entries =>
    (some (entries.map (fun e => { date := e.date, tvl := round2 e.tvl })), [])

/-- `filter_data_by_months` (main.py lines 34-40): empty input short-circuits
to `[]`; otherwise keep the records with `date >= now - timedelta(days=30*months)`.
`now` stands for `datetime.now()` in Unix seconds. -/
def filter_data_by_months (now : ℤ) (data : List Record) (months : ℤ) : List Record :=
  if data.isEmpty then []
  else
    let cutoff_date := now - 30 * months * 86400
    data.filter (fun d => cutoff_date ≤ d.date)

/-- `get_display_interval` (main.py lines 42-54): interval in days and its
label; every month count other than 3 and 6 falls into the `else` branch.
The `data_length` argument is accepted and never read, as in the source. -/
def get_display_interval (months : ℤ) (data_length : ℕ) : ℤ × String :=
  if months = 3 then (1, "Daily")
  else if months = 6 then (3, "Every 3 Days")
  else (7, "Weekly")

/-- Embedding of `argparse` with `type=int, choices=[3, 6, 12]`
(main.py lines 140-146): `none` stands for a missing or non-integer
argument; an integer outside the choices is rejected.  A rejection makes
`parse_args` print the usage text and raise `SystemExit`. -/
def parseMonths : Option ℤ → Option ℤ
  | none => none
  | some m => if m = 3 ∨ m = 6 ∨ m = 12 then some m else none

/-- Python `min(data, key=lambda x: abs(x['date'] - current_date))` over the
non-empty list `best :: rest`: the first element attaining the minimal key
wins, later elements replace the best only on a strictly smaller key. -/
def pyMinAbsDate (target : ℤ) (best : Record) : List Record → Record
  | [] => best
  | r :: rs =>
    if |r.date - target| < |best.date - target| then pyMinAbsDate target r rs
    else pyMinAbsDate target best rs

/-- The body of the sampling `while` loop (main.py lines 100-103): the
nearest record to the walk position `p`, accepted when
`abs((closest['date'] - p).days) <= 1`, where `.days` floors. -/
def acceptNearest (hd : Record) (tl : List Record) (p : ℤ) : Option Record :=
  let closest := pyMinAbsDate p hd tl
  if |Int.fdiv (closest.date - p) 86400| ≤ 1 then some closest else none

/-- The sampling `while` loop of `display_data` (main.py lines 99-104):
walk `current` from the first record's date up to `last` inclusive in steps
of `step` days, collecting the accepted nearest records.  The source loop
runs only with `step ∈ {1, 3, 7}`; for a non-positive `step` (where the
Python loop would never terminate) the embedding returns `[]`. -/
def sampleWalk (hd : Record) (tl : List Record) (step : ℤ) (current last : ℤ) :
    List Record :=
  if h : current ≤ last ∧ 0 < step then
    match acceptNearest hd tl current with
    | some c => c :: sampleWalk hd tl step (current + step * 86400) last
    | none => sampleWalk hd tl step (current + step * 86400) last
  else []
termination_by (last + 1 - current).toNat
decreasing_by
  all_goals obtain ⟨h1, h2⟩ := h
  all_goals omega

/-- The sampling phase of `display_data` (main.py lines 94-104): read
`data[-1]` and `data[0]` — an `IndexError` on the empty list — then run the
walk from the first to the last record's date. -/
def sampleSeries (data : List Record) (step : ℤ) : Except PyError (List Record) :=
  match data with
  | [] => .error .indexError
  | hd :: tl =>
    .ok (sampleWalk hd tl step hd.date ((hd :: tl).getLast (List.cons_ne_nil hd tl)).date)

/-- The percentage change printed by `display_data` (main.py line 115):
`((tvl - prev_tvl) / prev_tvl) * 100`. -/
def changeOf (prev curr : ℚ) : ℚ := (curr - prev) / prev * 100

/-- Two-digit zero-padded rendering of `0 ≤ n < 100`. -/
def pad2 (n : ℤ) : String := if n < 10 then "0" ++ toString n else toString n

/-- Embedding of the Python format `f"{x:+.2f}%"` used for the change column
(main.py line 116): sign, the rounded absolute value with two decimals, `%`. -/
def fmtChange (q : ℚ) : String :=
  let n : ℤ := round (|q| * 100)
  (if q < 0 then "-" else "+") ++ toString (n / 100) ++ "." ++ pad2 (n % 100) ++ "%"

/-- The display loop of `display_data` (main.py lines 107-120): one output
pair `(tvl, change column)` per sampled record.  The first argument is the
previous record's `tvl` (`none` at index 0, where the source prints `"---"`);
a zero previous amount makes Python raise `ZeroDivisionError` at line 115. -/
def buildRowsAux : Option ℚ → List Record → Except PyError (List (ℚ × String))
  | _, [] => .ok []
  | none, r :: rs =>
    match buildRowsAux (some r.tvl) rs with
    | .error e => .error e
    | .ok rest => .ok ((r.tvl, "---") :: rest)
  | some prev_tvl, r :: rs =>
    if prev_tvl = 0 then .error .zeroDivisionError
    else
      match buildRowsAux (some r.tvl) rs with
      | .error e => .error e
      | .ok rest => .ok ((r.tvl, fmtChange (changeOf prev_tvl r.tvl)) :: rest)

/-- `display_data` (main.py lines 86-120): sample the series at the interval
mapped from the month count, then produce the table rows. -/
def display_data (data : List Record) (months : ℤ) : Except PyError (List (ℚ × String)) :=
  match sampleSeries data (get_display_interval months data.length).1 with
  | .error e => .error e
  | .ok sampled => buildRowsAux none sampled

/-- The record order used by `filtered_data.sort(key=lambda x: x['date'])`. -/
def recLE (a b : Record) : Prop := a.date ≤ b.date

instance : DecidableRel recLE := fun a b => Int.decLe a.date b.date

instance : IsTotal Record recLE := ⟨fun a b => Int.le_total a.date b.date⟩

instance : IsTrans Record recLE := ⟨fun _ _ _ hab hbc => le_trans hab hbc⟩

/-- `filtered_data.sort(key=lambda x: x['date'])` (main.py line 162):
a stable sort by date, embedded as insertion sort (also stable). -/
def sortByDate (data : List Record) : List Record := List.insertionSort recLE data

/-- The chart file name `f'eth_tvl_{months}m.png'` (main.py line 83). -/
def chartFileName (months : ℤ) : String := "eth_tvl_" ++ toString months ++ "m.png"

/-- Observable outcome of one run of `main()`: the process exit code, whether
argparse printed its usage text, whether the HTTP fetch was attempted, the
error lines printed by the fetcher, and which downstream artifacts were
produced (`none` = that stage never ran). -/
structure MainResult where
  exitCode : ℕ
  usagePrinted : Bool
  fetchAttempted : Bool
  log : List String
  filtered : Option (List Record)
  table : Option (List (ℚ × String))
  chartFile : Option String
deriving DecidableEq, Repr

/-- `main` (main.py lines 122-169).  An argparse rejection raises
`SystemExit`, which the source catches and turns into a plain `return`, so
that path ends with exit code 0 and no fetch.  A falsy fetch result (`None`
or the empty list) skips filtering and both renderers.  Otherwise the data
is filtered, sorted, tabulated (uncaught `PyError`s propagate out of `main`)
and the chart file is written. -/
def mainRun (monthsArg : Option ℤ) (resp : FetchOutcome) (now : ℤ) :
    Except PyError MainResult :=
  match parseMonths monthsArg with
  | none => .ok ⟨0, true, false, [], none, none, none⟩
  | some months =>
    let fetched := fetch_ethereum_tvl resp
    match fetched.1 with
    | none => .ok ⟨0, false, true, fetched.2, none, none, none⟩
    | some all_data =>
      if all_data.isEmpty then .ok ⟨0, false, true, fetched.2, none, none, none⟩
      else
        let filtered_data := sortByDate (filter_data_by_months now all_data months)
        match display_data filtered_data months with
        | .error e => .error e
        | .ok rows =>
          .ok ⟨0, false, true, fetched.2, some filtered_data, some rows,
            some (chartFileName months)⟩

/-- The idealized walk positions of the sampling loop: `current`,
`current + step` days, ... up to `last` inclusive (empty when the loop guard
fails immediately; `[]` for a non-positive step, where the source loop would
not terminate). -/
def walkPositions (current last step : ℤ) : List ℤ :=
  if h : current ≤ last ∧ 0 < step then
    current :: walkPositions (current + step * 86400) last step
  else []
termination_by (last + 1 - current).toNat
decreasing_by
  obtain ⟨h1, h2⟩ := h
  omega

/-- Modelled from the spec: the acceptance rule in the spec's words — take
the nearest record only if its distance to the walk position is at most
1 day (86400 seconds).  Used solely to compare the spec's sampling rule with
the code's `acceptNearest`. -/
def specAccept (hd : Record) (tl : List Record) (p : ℤ) : Option Record :=
  let closest := pyMinAbsDate p hd tl
  if |closest.date - p| ≤ 86400 then some closest else none

/-- Modelled from the spec: the sampler as §4.3 of the spec words it — walk
from the first to the last record's date and accept by `specAccept`. -/
def specSampleSeries (data : List Record) (step : ℤ) : Except PyError (List Record) :=
  match data with
  | [] => .error .indexError
  | hd :: tl =>
    .ok ((walkPositions hd.date ((hd :: tl).getLast (List.cons_ne_nil hd tl)).date step).filterMap
      (specAccept hd tl))

/-! ## Helper lemmas about the sampling walk -/

theorem walkPositions_step {current last step : ℤ} (h1 : current ≤ last) (h2 : 0 < step) :
    walkPositions current last step =
      current :: walkPositions (current + step * 86400) last step := by
  rw [walkPositions]
  simp [h1, h2]

theorem walkPositions_stop {current last step : ℤ} (h : ¬(current ≤ last ∧ 0 < step)) :
    walkPositions current last step = [] := by
  rw [walkPositions]
  simp [h]

theorem sampleWalk_step_some {hd : Record} {tl : List Record} {step current last : ℤ}
    {c : Record} (h1 : current ≤ last) (h2 : 0 < step)
    (hacc : acceptNearest hd tl current = some c) :
    sampleWalk hd tl step current last =
      c :: sampleWalk hd tl step (current + step * 86400) last := by
  rw [sampleWalk]
  simp [h1, h2, hacc]

theorem sampleWalk_step_none {hd : Record} {tl : List Record} {step current last : ℤ}
    (h1 : current ≤ last) (h2 : 0 < step)
    (hacc : acceptNearest hd tl current = none) :
    sampleWalk hd tl step current last =
      sampleWalk hd tl step (current + step * 86400) last := by
  rw [sampleWalk]
  simp [h1, h2, hacc]

theorem sampleWalk_stop {hd : Record} {tl : List Record} {step current last : ℤ}
    (h : ¬(current ≤ last ∧ 0 < step)) :
    sampleWalk hd tl step current last = [] := by
  rw [sampleWalk]
  simp [h]

theorem sampleWalk_eq_filterMap (hd : Record) (tl : List Record) (step last : ℤ) :
    ∀ (n : ℕ) (current : ℤ), (last + 1 - current).toNat ≤ n →
      sampleWalk hd tl step current last =
        (walkPositions current last step).filterMap (acceptNearest hd tl) := by
  intro n
  induction n with
  | zero =>
    intro current hn
    rw [sampleWalk_stop (by omega), walkPositions_stop (by omega)]
    rfl
  | succ n ih =>
    intro current hn
    by_cases hg : current ≤ last ∧ 0 < step
    · rw [walkPositions_step hg.1 hg.2, List.filterMap_cons]
      have hnext : (last + 1 - (current + step * 86400)).toNat ≤ n := by
        obtain ⟨hgl, hgs⟩ := hg
        omega
      cases hacc : acceptNearest hd tl current with
      | some c => rw [sampleWalk_step_some hg.1 hg.2 hacc, ih _ hnext]
      | none => rw [sampleWalk_step_none hg.1 hg.2 hacc, ih _ hnext]
    · rw [sampleWalk_stop hg, walkPositions_stop hg]
      rfl

theorem pyMinAbsDate_mem (t : ℤ) (best : Record) (l : List Record) :
    pyMinAbsDate t best l ∈ best :: l := by
  induction l generalizing best with
  | nil => simp [pyMinAbsDate]
  | cons x xs ih =>
    by_cases hc : |x.date - t| < |best.date - t|
    · simp only [pyMinAbsDate, if_pos hc]
      exact List.mem_cons_of_mem best (ih x)
    · simp only [pyMinAbsDate, if_neg hc]
      rcases List.mem_cons.mp (ih best) with h1 | h1
      · exact List.mem_cons.mpr (Or.inl h1)
      · exact List.mem_cons.mpr (Or.inr (List.mem_cons_of_mem x h1))

theorem pyMinAbsDate_le (t : ℤ) (best : Record) (l : List Record) :
    ∀ r ∈ best :: l, |(pyMinAbsDate t best l).date - t| ≤ |r.date - t| := by
  induction l generalizing best with
  | nil =>
    intro r hr
    simp at hr
    rw [hr]
    simp [pyMinAbsDate]
  | cons x xs ih =>
    intro r hr
    by_cases hc : |x.date - t| < |best.date - t|
    · simp only [pyMinAbsDate, if_pos hc]
      rcases List.mem_cons.mp hr with h1 | h1
      · rw [h1]
        exact le_trans (ih x x (List.mem_cons_self x xs)) (le_of_lt hc)
      · exact ih x r h1
    · simp only [pyMinAbsDate, if_neg hc]
      rcases List.mem_cons.mp hr with h1 | h1
      · rw [h1]
        exact ih best best (List.mem_cons_self best xs)
      · rcases List.mem_cons.mp h1 with h2 | h2
        · rw [h2]
          exact le_trans (ih best best (List.mem_cons_self best xs)) (not_lt.mp hc)
        · exact ih best r (List.mem_cons.mpr (Or.inr h2))

theorem acceptNearest_mem {hd : Record} {tl : List Record} {p : ℤ} {c : Record}
    (h : acceptNearest hd tl p = some c) : c ∈ hd :: tl := by
  simp only [acceptNearest] at h
  by_cases hc : |Int.fdiv ((pyMinAbsDate p hd tl).date - p) 86400| ≤ 1
  · rw [if_pos hc] at h
    injection h with h
    rw [← h]
    exact pyMinAbsDate_mem p hd tl
  · rw [if_neg hc] at h
    exact absurd h (by simp)

theorem fdiv_tolerance (d : ℤ) : |Int.fdiv d 86400| ≤ 1 ↔ -86400 ≤ d ∧ d < 2 * 86400 := by
  rw [Int.fdiv_eq_ediv d (by norm_num), abs_le]
  omega

theorem acceptNearest_eq_interval (hd : Record) (tl : List Record) (p : ℤ) :
    acceptNearest hd tl p =
      (let closest := pyMinAbsDate p hd tl
       if -86400 ≤ closest.date - p ∧ closest.date - p < 2 * 86400 then some closest
       else none) := by
  simp only [acceptNearest]
  by_cases hc : -86400 ≤ (pyMinAbsDate p hd tl).date - p ∧
      (pyMinAbsDate p hd tl).date - p < 2 * 86400
  · rw [if_pos ((fdiv_tolerance _).mpr hc), if_pos hc]
  · rw [if_neg (fun hcc => hc ((fdiv_tolerance _).mp hcc)), if_neg hc]

theorem walkPositions_mem (last step : ℤ) (hs : 0 < step) :
    ∀ (n : ℕ) (current p : ℤ), (last + 1 - current).toNat ≤ n →
      (p ∈ walkPositions current last step ↔
        ∃ k : ℕ, p = current + k * (step * 86400) ∧ p ≤ last) := by
  intro n
  induction n with
  | zero =>
    intro current p hn
    rw [walkPositions_stop (by omega)]
    simp only [List.not_mem_nil, false_iff, not_exists, not_and]
    intro k hk
    have hk1 : (0 : ℤ) ≤ (k : ℤ) * (step * 86400) := by positivity
    omega
  | succ n ih =>
    intro current p hn
    by_cases hg : current ≤ last ∧ 0 < step
    · rw [walkPositions_step hg.1 hg.2]
      have hnext : (last + 1 - (current + step * 86400)).toNat ≤ n := by
        obtain ⟨hgl, hgs⟩ := hg
        omega
      rw [List.mem_cons, ih _ p hnext]
      constructor
      · rintro (h1 | ⟨k, hk, hkl⟩)
        · exact ⟨0, by rw [h1]; ring, by rw [h1]; exact hg.1⟩
        · exact ⟨k + 1, by rw [hk]; push_cast; ring, hkl⟩
      · rintro ⟨k, hk, hkl⟩
        cases k with
        | zero =>
          left
          rw [hk]
          ring
        | succ k =>
          right
          exact ⟨k, by rw [hk]; push_cast; ring, hkl⟩
    · rw [walkPositions_stop hg]
      simp only [List.not_mem_nil, false_iff, not_exists, not_and]
      intro k hk
      have hk1 : (0 : ℤ) ≤ (k : ℤ) * (step * 86400) := by positivity
      omega

theorem get_display_interval_fst_pos (months : ℤ) (l : ℕ) :
    0 < (get_display_interval months l).1 := by
  unfold get_display_interval
  split
  · norm_num
  · split <;> norm_num

theorem sampleWalk_subset (hd : Record) (tl : List Record) (step last : ℤ) :
    ∀ (n : ℕ) (current : ℤ), (last + 1 - current).toNat ≤ n →
      ∀ r ∈ sampleWalk hd tl step current last, r ∈ hd :: tl := by
  intro n
  induction n with
  | zero =>
    intro current hn r hr
    rw [sampleWalk_stop (by omega)] at hr
    simp at hr
  | succ n ih =>
    intro current hn r hr
    by_cases hg : current ≤ last ∧ 0 < step
    · have hnext : (last + 1 - (current + step * 86400)).toNat ≤ n := by
        obtain ⟨hgl, hgs⟩ := hg
        omega
      cases hacc : acceptNearest hd tl current with
      | some c =>
        rw [sampleWalk_step_some hg.1 hg.2 hacc] at hr
        rcases List.mem_cons.mp hr with h1 | h1
        · rw [h1]
          exact acceptNearest_mem hacc
        · exact ih _ hnext r h1
      | none =>
        rw [sampleWalk_step_none hg.1 hg.2 hacc] at hr
        exact ih _ hnext r hr
    · rw [sampleWalk_stop hg] at hr
      simp at hr

/-! ## Helper lemmas about the table rows -/

/-- The previous sampled amount seen at index `i` of the display loop when
the loop was entered with pending previous amount `pre`. -/
def prevTvl (pre : Option ℚ) (sampled : List Record) : ℕ → Option ℚ
  | 0 => pre
  | Nat.succ j => (sampled[j]?).map (fun r => r.tvl)

/-- The change column printed for a row, given the previous sampled amount. -/
def changeCell (prev : Option ℚ) (curr : ℚ) : String :=
  match prev with
  | none => "---"
  | some p => fmtChange (changeOf p curr)

theorem prevTvl_cons (r : Record) (rs : List Record) (pre : Option ℚ) (j : ℕ) :
    prevTvl pre (r :: rs) (j + 1) = prevTvl (some r.tvl) rs j := by
  cases j with
  | zero => simp [prevTvl]
  | succ k => simp [prevTvl]

theorem buildRowsAux_spec :
    ∀ (sampled : List Record) (pre : Option ℚ) (rows : List (ℚ × String)),
      buildRowsAux pre sampled = .ok rows →
      rows.length = sampled.length ∧
      ∀ (i : ℕ) (hr : i < rows.length) (hs : i < sampled.length),
        rows.get ⟨i, hr⟩ =
          ((sampled.get ⟨i, hs⟩).tvl,
            changeCell (prevTvl pre sampled i) (sampled.get ⟨i, hs⟩).tvl) := by
  intro sampled
  induction sampled with
  | nil =>
    intro pre rows h
    simp only [buildRowsAux] at h
    injection h with h
    rw [← h]
    exact ⟨rfl, fun i hr hs => by simp at hr⟩
  | cons r rs ih =>
    intro pre rows h
    have step :
        ∀ (cell : String) (rest : List (ℚ × String)),
          buildRowsAux (some r.tvl) rs = .ok rest →
          rows = (r.tvl, cell) :: rest →
          cell = changeCell (prevTvl pre (r :: rs) 0) r.tvl →
          rows.length = (r :: rs).length ∧
          ∀ (i : ℕ) (hr : i < rows.length) (hs : i < (r :: rs).length),
            rows.get ⟨i, hr⟩ =
              (((r :: rs).get ⟨i, hs⟩).tvl,
                changeCell (prevTvl pre (r :: rs) i) ((r :: rs).get ⟨i, hs⟩).tvl) := by
      intro cell rest hrec hrows hcell
      obtain ⟨ihlen, ihget⟩ := ih (some r.tvl) rest hrec
      constructor
      · rw [hrows]
        simp [ihlen]
      · intro i hr hs
        cases i with
        | zero =>
          subst hrows
          rw [hcell]
          rfl
        | succ j =>
          subst hrows
          have hr' : j < rest.length := by
            simp at hr
            omega
          have hs' : j < rs.length := by
            simp at hs
            omega
          have := ihget j hr' hs'
          simp only [List.get_cons_succ]
          rw [this, prevTvl_cons]
    cases pre with
    | none =>
      simp only [buildRowsAux] at h
      cases hrec : buildRowsAux (some r.tvl) rs with
      | error e =>
        rw [hrec] at h
        exact absurd h (by simp)
      | ok rest =>
        rw [hrec] at h
        injection h with h
        exact step "---" rest hrec h.symm rfl
    | some p =>
      simp only [buildRowsAux] at h
      by_cases hp : p = 0
      · rw [if_pos hp] at h
        exact absurd h (by simp)
      · rw [if_neg hp] at h
        cases hrec : buildRowsAux (some r.tvl) rs with
        | error e =>
          rw [hrec] at h
          exact absurd h (by simp)
        | ok rest =>
          rw [hrec] at h
          injection h with h
          exact step (fmtChange (changeOf p r.tvl)) rest hrec h.symm rfl

/-- Membership characterization of the window filter, shared by the claims
about filtering. -/
theorem filter_data_by_months_mem (now : ℤ) (data : List Record) (months : ℤ)
    (r : Record) :
    r ∈ filter_data_by_months now data months ↔
      (r ∈ data ∧ now - 30 * months * 86400 ≤ r.date) := by
  unfold filter_data_by_months
  by_cases hd : data.isEmpty
  · rw [List.isEmpty_iff] at hd
    subst hd
    simp
  · simp only [hd, if_false, Bool.false_eq_true]
    rw [List.mem_filter]
    simp

/-! ## Claim theorems -/

/-- C2: for every series and month count M, the window filter returns exactly
the records with date at least `now − 30×M` days (kept iff in the input and
inside the bound), and empty input yields empty output. -/
theorem C2_filter_window (now : ℤ) (data : List Record) (months : ℤ) :
    (∀ r : Record, r ∈ filter_data_by_months now data months ↔
      (r ∈ data ∧ now - 30 * months * 86400 ≤ r.date)) ∧
    filter_data_by_months now [] months = [] :=
  ⟨fun r => filter_data_by_months_mem now data months r, rfl⟩

/-- C6: the interval mapping sends 3 to step 1 "Daily", 6 to step 3
"Every 3 Days", 12 to step 7 "Weekly", and the argparse boundary accepts a
month value only if it lies in {3, 6, 12}. -/
theorem C6_interval_mapping :
    (∀ l : ℕ, get_display_interval 3 l = (1, "Daily")) ∧
    (∀ l : ℕ, get_display_interval 6 l = (3, "Every 3 Days")) ∧
    (∀ l : ℕ, get_display_interval 12 l = (7, "Weekly")) ∧
    (∀ m m' : ℤ, parseMonths (some m) = some m' →
      m' = m ∧ (m = 3 ∨ m = 6 ∨ m = 12)) ∧
    parseMonths none = none := by
  refine ⟨fun l => rfl, fun l => by norm_num [get_display_interval],
    fun l => by norm_num [get_display_interval], fun m m' h => ?_, rfl⟩
  simp only [parseMonths] at h
  by_cases hm : m = 3 ∨ m = 6 ∨ m = 12
  · rw [if_pos hm] at h
    injection h with h
    exact ⟨h.symm, hm⟩
  · rw [if_neg hm] at h
    exact absurd h (by simp)

/-- Witness for C6 at the concrete accepted value 3. -/
theorem C6_interval_mapping_witness :
    (3 : ℤ) = 3 ∧ ((3 : ℤ) = 3 ∨ (3 : ℤ) = 6 ∨ (3 : ℤ) = 12) :=
  C6_interval_mapping.2.2.2.1 3 3 (by decide)

/-- C9: the window filter is order-preserving — its output is a sublist of
its input, so a date-sorted input yields a date-sorted output. -/
theorem C9_filter_order_preserving (now : ℤ) (data : List Record) (months : ℤ) :
    (filter_data_by_months now data months).Sublist data ∧
    (List.Sorted recLE data → List.Sorted recLE (filter_data_by_months now data months)) := by
  have hsub : (filter_data_by_months now data months).Sublist data := by
    by_cases hd : data.isEmpty
    · rw [List.isEmpty_iff] at hd
      subst hd
      simp [filter_data_by_months]
    · unfold filter_data_by_months
      simp only [hd, if_false, Bool.false_eq_true]
      exact List.filter_sublist data
  exact ⟨hsub, fun hs => hs.sublist hsub⟩

/-- Witness for C9 on a concrete sorted two-record series. -/
theorem C9_filter_order_preserving_witness :
    (filter_data_by_months 0 [⟨0, 1⟩, ⟨86400, 2⟩] 3).Sublist [⟨0, 1⟩, ⟨86400, 2⟩] ∧
    List.Sorted recLE (filter_data_by_months 0 [⟨0, 1⟩, ⟨86400, 2⟩] 3) :=
  ⟨(C9_filter_order_preserving 0 [⟨0, 1⟩, ⟨86400, 2⟩] 3).1,
    (C9_filter_order_preserving 0 [⟨0, 1⟩, ⟨86400, 2⟩] 3).2
      (by simp [List.sorted_cons, recLE])⟩

/-- C10: the interval mapping is total in the month count, independent of its
`data_length` argument, and sends every month count other than 3 and 6
(12 included, but also 0, negatives, and anything else) to step 7 "Weekly". -/
theorem C10_interval_total (m : ℤ) (l1 l2 : ℕ) :
    get_display_interval m l1 = get_display_interval m l2 ∧
    (m ≠ 3 → m ≠ 6 → get_display_interval m l1 = (7, "Weekly")) :=
  ⟨rfl, fun h3 h6 => by simp [get_display_interval, h3, h6]⟩

/-- Witness for C10 at month count 0 and two different data lengths. -/
theorem C10_interval_total_witness :
    get_display_interval 0 5 = get_display_interval 0 9 ∧
    get_display_interval 0 5 = (7, "Weekly") :=
  ⟨(C10_interval_total 0 5 9).1, (C10_interval_total 0 5 9).2 (by decide) (by decide)⟩

/-- C8: every record's amount is the API value rounded to 2 decimals at
ingestion, and filtering, sorting and sampling only rearrange or drop whole
input records (each output record is one of the input records, dates and
amounts unchanged; the sort is a permutation). -/
theorem C8_ingestion_and_immutability :
    (∀ entries : List ApiEntry,
      (fetch_ethereum_tvl (.ok entries)).1 =
        some (entries.map (fun e => { date := e.date, tvl := round2 e.tvl }))) ∧
    (∀ (now : ℤ) (data : List Record) (months : ℤ) (r : Record),
      r ∈ filter_data_by_months now data months → r ∈ data) ∧
    (∀ data : List Record, (sortByDate data).Perm data) ∧
    (∀ (hd : Record) (tl : List Record) (step current last : ℤ) (r : Record),
      r ∈ sampleWalk hd tl step current last → r ∈ hd :: tl) := by
  refine ⟨fun entries => rfl, ?_, fun data => List.perm_insertionSort recLE data, ?_⟩
  · intro now data months r hr
    exact ((filter_data_by_months_mem now data months r).mp hr).1
  · intro hd tl step current last r hr
    exact sampleWalk_subset hd tl step last (last + 1 - current).toNat current le_rfl r hr

/-- Witness for C8 at concrete inputs: a fetched amount is rounded, a
filtered record and a sampled record come from the input, the sort permutes. -/
theorem C8_ingestion_and_immutability_witness :
    (fetch_ethereum_tvl (.ok [⟨0, 1 / 3⟩])).1 = some [⟨0, round2 (1 / 3)⟩] ∧
    (⟨0, 5⟩ : Record) ∈ [(⟨0, 5⟩ : Record)] ∧
    (sortByDate [⟨5, 1⟩, ⟨2, 3⟩]).Perm [⟨5, 1⟩, ⟨2, 3⟩] ∧
    (⟨0, 5⟩ : Record) ∈ [(⟨0, 5⟩ : Record)] := by
  have hsw : sampleWalk ⟨0, 5⟩ [] 1 0 0 = [⟨0, 5⟩] := by
    have hacc : acceptNearest ⟨0, 5⟩ [] 0 = some ⟨0, 5⟩ := by decide
    rw [sampleWalk_step_some (by norm_num) (by norm_num) hacc,
      sampleWalk_stop (by norm_num)]
  refine ⟨C8_ingestion_and_immutability.1 [⟨0, 1 / 3⟩],
    C8_ingestion_and_immutability.2.1 0 [⟨0, 5⟩] 3 ⟨0, 5⟩ (by decide),
    C8_ingestion_and_immutability.2.2.1 [⟨5, 1⟩, ⟨2, 3⟩],
    C8_ingestion_and_immutability.2.2.2 ⟨0, 5⟩ [] 1 0 0 ⟨0, 5⟩ (by rw [hsw]; decide)⟩

/-- C3: in the rendered table every row after the first shows
`(curr − prev) / prev × 100` versus the immediately preceding sampled row,
signed with two decimals, the first row shows the placeholder `---`, and the
sampled amounts 100, 110, 99 produce `---`, `+10.00%`, `-10.00%`. -/
theorem C3_percentage_change :
    (∀ (sampled : List Record) (rows : List (ℚ × String)) (i : ℕ)
        (h : buildRowsAux none sampled = .ok rows)
        (h0 : 0 < rows.length) (hi : i + 1 < rows.length)
        (hs : i + 1 < sampled.length) (hs0 : i < sampled.length),
      rows.length = sampled.length ∧
      (rows.get ⟨0, h0⟩).2 = "---" ∧
      rows.get ⟨i + 1, hi⟩ =
        ((sampled.get ⟨i + 1, hs⟩).tvl,
          fmtChange (changeOf (sampled.get ⟨i, hs0⟩).tvl
            (sampled.get ⟨i + 1, hs⟩).tvl))) ∧
    buildRowsAux none [⟨0, 100⟩, ⟨86400, 110⟩, ⟨172800, 99⟩] =
      .ok [(100, "---"), (110, "+10.00%"), (99, "-10.00%")] := by
  constructor
  · intro sampled rows i h h0 hi hs hs0
    obtain ⟨hlen, hget⟩ := buildRowsAux_spec sampled none rows h
    refine ⟨hlen, ?_, ?_⟩
    · have h00 : 0 < sampled.length := hlen ▸ h0
      rw [hget 0 h0 h00]
      simp [prevTvl, changeCell]
    · rw [hget (i + 1) hi hs]
      have hp : prevTvl none sampled (i + 1) = some (sampled.get ⟨i, hs0⟩).tvl := by
        simp [prevTvl, List.getElem?_eq_getElem hs0]
      rw [hp]
      rfl
  · have hc1 : fmtChange (changeOf 100 110) = "+10.00%" := by
      have hc : changeOf 100 110 = 10 := by norm_num [changeOf]
      rw [hc]
      have h : round ((|(10 : ℚ)| * 100)) = 1000 := by norm_num [round_eq]
      simp only [fmtChange, h]
      decide
    have hc2 : fmtChange (changeOf 110 99) = "-10.00%" := by
      have hc : changeOf 110 99 = -10 := by norm_num [changeOf]
      rw [hc]
      have h : round ((|(-10 : ℚ)| * 100)) = 1000 := by norm_num [round_eq]
      simp only [fmtChange, h]
      decide
    simp [buildRowsAux, hc1, hc2]

/-- Witness for C3: the general row property applied to the concrete sampled
amounts 100, 110, 99 at row index 1. -/
theorem C3_percentage_change_witness :
    ([(100, "---"), (110, "+10.00%"), (99, "-10.00%")] : List (ℚ × String)).length =
      ([⟨0, 100⟩, ⟨86400, 110⟩, ⟨172800, 99⟩] : List Record).length ∧
    (([(100, "---"), (110, "+10.00%"), (99, "-10.00%")] : List (ℚ × String)).get
      ⟨0, by decide⟩).2 = "---" ∧
    ([(100, "---"), (110, "+10.00%"), (99, "-10.00%")] : List (ℚ × String)).get
      ⟨1, by decide⟩ =
      ((([⟨0, 100⟩, ⟨86400, 110⟩, ⟨172800, 99⟩] : List Record).get ⟨1, by decide⟩).tvl,
        fmtChange (changeOf
          (([⟨0, 100⟩, ⟨86400, 110⟩, ⟨172800, 99⟩] : List Record).get ⟨0, by decide⟩).tvl
          (([⟨0, 100⟩, ⟨86400, 110⟩, ⟨172800, 99⟩] : List Record).get ⟨1, by decide⟩).tvl)) :=
  C3_percentage_change.1 [⟨0, 100⟩, ⟨86400, 110⟩, ⟨172800, 99⟩]
    [(100, "---"), (110, "+10.00%"), (99, "-10.00%")] 0
    C3_percentage_change.2 (by decide) (by decide) (by decide) (by decide)

/-- C1 (amended): for every non-empty series the sampler walks from the
first record's date to the last record's date inclusive in increments of the
mapped step (the walk positions are exactly `first + k·step` days ≤ last),
and at each position takes the record minimizing the absolute date distance
over the entire series — but the acceptance test is the Python-floored day
count, so the nearest record is accepted iff its signed offset `d` from the
position satisfies `−1 day ≤ d < 2 days`, not iff its distance is ≤ 1 day. -/
theorem C1_sampler_walk (hd : Record) (tl : List Record) (months : ℤ) :
    sampleSeries (hd :: tl) (get_display_interval months (hd :: tl).length).1 =
      .ok ((walkPositions hd.date ((hd :: tl).getLast (List.cons_ne_nil hd tl)).date
            (get_display_interval months (hd :: tl).length).1).filterMap
          (fun p =>
            let closest := pyMinAbsDate p hd tl
            if -86400 ≤ closest.date - p ∧ closest.date - p < 2 * 86400 then some closest
            else none)) ∧
    (∀ p : ℤ, pyMinAbsDate p hd tl ∈ hd :: tl ∧
      ∀ r ∈ hd :: tl, |(pyMinAbsDate p hd tl).date - p| ≤ |r.date - p|) ∧
    (∀ p : ℤ,
      p ∈ walkPositions hd.date ((hd :: tl).getLast (List.cons_ne_nil hd tl)).date
          (get_display_interval months (hd :: tl).length).1 ↔
        ∃ k : ℕ,
          p = hd.date + k * ((get_display_interval months (hd :: tl).length).1 * 86400) ∧
          p ≤ ((hd :: tl).getLast (List.cons_ne_nil hd tl)).date) := by
  have hpos : 0 < (get_display_interval months (hd :: tl).length).1 :=
    get_display_interval_fst_pos months _
  refine ⟨?_, ?_, ?_⟩
  · simp only [sampleSeries]
    rw [sampleWalk_eq_filterMap hd tl (get_display_interval months (hd :: tl).length).1
      ((hd :: tl).getLast (List.cons_ne_nil hd tl)).date
      ((((hd :: tl).getLast (List.cons_ne_nil hd tl)).date + 1 - hd.date).toNat)
      hd.date le_rfl]
    rw [funext (acceptNearest_eq_interval hd tl)]
  · intro p
    exact ⟨pyMinAbsDate_mem p hd tl, pyMinAbsDate_le p hd tl⟩
  · intro p
    exact walkPositions_mem ((hd :: tl).getLast (List.cons_ne_nil hd tl)).date
      (get_display_interval months (hd :: tl).length).1 hpos
      ((((hd :: tl).getLast (List.cons_ne_nil hd tl)).date + 1 - hd.date).toNat)
      hd.date p le_rfl

/-- Counterexample to C1 as stated: with records at 0 s and 302400 s
(3.5 days) and the step mapped from months = 3 (1 day), the code accepts the
record at 302400 s for the walk position 172800 s although its distance,
129600 s = 1.5 days, exceeds 1 day; the spec-worded sampler (distance ≤ 1
day) skips that position, so the two disagree. -/
theorem C1_sampler_claim_counterexample :
    (get_display_interval 3 2).1 = 1 ∧
    sampleSeries [⟨0, 100⟩, ⟨302400, 110⟩] 1 =
      .ok [⟨0, 100⟩, ⟨0, 100⟩, ⟨302400, 110⟩, ⟨302400, 110⟩] ∧
    specSampleSeries [⟨0, 100⟩, ⟨302400, 110⟩] 1 =
      .ok [⟨0, 100⟩, ⟨0, 100⟩, ⟨302400, 110⟩] ∧
    sampleSeries [⟨0, 100⟩, ⟨302400, 110⟩] 1 ≠
      specSampleSeries [⟨0, 100⟩, ⟨302400, 110⟩] 1 ∧
    |(302400 : ℤ) - 2 * 86400| > 86400 := by
  have hw : walkPositions 0 302400 1 = [0, 86400, 172800, 259200] := by
    rw [walkPositions_step (by norm_num) (by norm_num),
      walkPositions_step (by norm_num) (by norm_num),
      walkPositions_step (by norm_num) (by norm_num),
      walkPositions_step (by norm_num) (by norm_num),
      walkPositions_stop (by norm_num)]
    norm_num
  have hsw : sampleWalk ⟨0, 100⟩ [⟨302400, 110⟩] 1 0 302400 =
      [⟨0, 100⟩, ⟨0, 100⟩, ⟨302400, 110⟩, ⟨302400, 110⟩] := by
    rw [sampleWalk_eq_filterMap ⟨0, 100⟩ [⟨302400, 110⟩] 1 302400 302401 0 (by norm_num),
      hw]
    decide
  have hcode : sampleSeries [⟨0, 100⟩, ⟨302400, 110⟩] 1 =
      .ok [⟨0, 100⟩, ⟨0, 100⟩, ⟨302400, 110⟩, ⟨302400, 110⟩] := by
    simp only [sampleSeries, List.getLast]
    rw [hsw]
  have hspec : specSampleSeries [⟨0, 100⟩, ⟨302400, 110⟩] 1 =
      .ok [⟨0, 100⟩, ⟨0, 100⟩, ⟨302400, 110⟩] := by
    simp only [specSampleSeries, List.getLast]
    rw [hw]
    decide
  exact ⟨rfl, hcode, hspec, by rw [hcode, hspec]; decide, by decide⟩

/-- C7: the zero-division in the percentage change and the empty-series
indexing in the sampler are unguarded: a sampled zero amount followed by
another row raises `ZeroDivisionError` inside the table renderer, the empty
filtered series raises `IndexError` at `data[-1]`, and both errors propagate
uncaught out of `main` (here: a fetched series whose second record follows a
zero-amount record, and a fetched series entirely older than the window). -/
theorem C7_unguarded_errors :
    display_data [⟨0, 0⟩, ⟨86400, 100⟩] 3 = .error .zeroDivisionError ∧
    display_data [] 12 = .error .indexError ∧
    mainRun (some 3) (.ok [⟨0, 0⟩, ⟨86400, 100⟩]) 86400 = .error .zeroDivisionError ∧
    mainRun (some 3) (.ok [⟨0, 5⟩]) 1000000000 = .error .indexError := by
  have hw : walkPositions 0 86400 1 = [0, 86400] := by
    rw [walkPositions_step (by norm_num) (by norm_num),
      walkPositions_step (by norm_num) (by norm_num),
      walkPositions_stop (by norm_num)]
    norm_num
  have hsw : sampleWalk ⟨0, 0⟩ [⟨86400, 100⟩] 1 0 86400 = [⟨0, 0⟩, ⟨86400, 100⟩] := by
    rw [sampleWalk_eq_filterMap ⟨0, 0⟩ [⟨86400, 100⟩] 1 86400 86401 0 (by norm_num), hw]
    decide
  have hdd : display_data [⟨0, 0⟩, ⟨86400, 100⟩] 3 = .error .zeroDivisionError := by
    simp only [display_data, sampleSeries, List.getLast, get_display_interval]
    norm_num
    rw [hsw]
    decide
  have hf : fetch_ethereum_tvl (.ok [⟨0, 0⟩, ⟨86400, 100⟩]) =
      (some [⟨0, 0⟩, ⟨86400, 100⟩], []) := by
    norm_num [fetch_ethereum_tvl, round2, round_eq]
  have hf2 : fetch_ethereum_tvl (.ok [⟨0, 5⟩]) = (some [⟨0, 5⟩], []) := by
    norm_num [fetch_ethereum_tvl, round2, round_eq]
  refine ⟨hdd, by decide, ?_, ?_⟩
  · have hfil : filter_data_by_months 86400 [⟨0, 0⟩, ⟨86400, 100⟩] 3 =
        [⟨0, 0⟩, ⟨86400, 100⟩] := by decide
    have hsort : sortByDate [⟨0, 0⟩, ⟨86400, 100⟩] = [⟨0, 0⟩, ⟨86400, 100⟩] := by decide
    simp [mainRun, parseMonths, hf, hfil, hsort, hdd]
  · have hfil2 : filter_data_by_months 1000000000 [⟨0, 5⟩] 3 = [] := by decide
    simp [mainRun, parseMonths, hf2, hfil2, sortByDate, display_data, sampleSeries]

/-- Counterexample to C4 as stated: for the invalid month value 5 the run
prints the usage text and performs no fetch, but the process exit is 0, not
a non-zero-equivalent exit — `main` catches the `SystemExit` raised by
argparse and returns normally. -/
theorem C4_usage_counterexample :
    mainRun (some 5) (.netError "x") 0 = .ok ⟨0, true, false, [], none, none, none⟩ ∧
    ¬∃ res : MainResult,
      mainRun (some 5) (.netError "x") 0 = .ok res ∧ res.exitCode ≠ 0 := by
  have h : mainRun (some 5) (.netError "x") 0 =
      .ok ⟨0, true, false, [], none, none, none⟩ := by decide
  refine ⟨h, ?_⟩
  rintro ⟨res, h1, h2⟩
  rw [h] at h1
  injection h1 with h1
  rw [← h1] at h2
  exact h2 rfl

/-- C4 (amended): every invocation with a missing or invalid months argument
(any value outside {3, 6, 12}) prints the usage message and terminates with
no fetch attempt and no other side effect, but — because `main` catches the
`SystemExit` from argparse — the process exits with code 0, not non-zero. -/
theorem C4_invalid_args_amended (monthsArg : Option ℤ) (resp : FetchOutcome) (now : ℤ)
    (h : parseMonths monthsArg = none) :
    mainRun monthsArg resp now = .ok ⟨0, true, false, [], none, none, none⟩ := by
  unfold mainRun
  rw [h]

/-- Witness for the amended C4 at a missing argument. -/
theorem C4_invalid_args_amended_witness :
    mainRun none .badJson 7 = .ok ⟨0, true, false, [], none, none, none⟩ :=
  C4_invalid_args_amended none .badJson 7 rfl

/-- C5: on a network error, non-2xx status or malformed JSON the fetcher
logs an error line and returns an absent result, and the run performs no
filtering, no table rendering and no chart rendering. -/
theorem C5_fetch_error_aborts (resp : FetchOutcome) (monthsArg : Option ℤ)
    (months now : ℤ) (herr : resp.isErr = true)
    (hp : parseMonths monthsArg = some months) :
    (fetch_ethereum_tvl resp).1 = none ∧
    (fetch_ethereum_tvl resp).2 ≠ [] ∧
    mainRun monthsArg resp now =
      .ok ⟨0, false, true, (fetch_ethereum_tvl resp).2, none, none, none⟩ := by
  cases resp with
  | ok entries => simp [FetchOutcome.isErr] at herr
  | netError msg =>
    refine ⟨rfl, by simp [fetch_ethereum_tvl], ?_⟩
    simp [mainRun, hp, fetch_ethereum_tvl]
  | httpError status =>
    refine ⟨rfl, by simp [fetch_ethereum_tvl], ?_⟩
    simp [mainRun, hp, fetch_ethereum_tvl]
  | badJson =>
    refine ⟨rfl, by simp [fetch_ethereum_tvl], ?_⟩
    simp [mainRun, hp, fetch_ethereum_tvl]

/-- Witness for C5 at a concrete network failure with months = 3. -/
theorem C5_fetch_error_aborts_witness :
    (fetch_ethereum_tvl (.netError "boom")).1 = none ∧
    (fetch_ethereum_tvl (.netError "boom")).2 ≠ [] ∧
    mainRun (some 3) (.netError "boom") 0 =
      .ok ⟨0, false, true, (fetch_ethereum_tvl (.netError "boom")).2,
        none, none, none⟩ :=
  C5_fetch_error_aborts (.netError "boom") (some 3) 3 0 rfl (by decide)
